import Mathlib

/-!
Verification of the tabular-structure inference and quality-scoring engine of
the `pdf_parser` repository (`src/csv_converter.py`, `src/table_extractor.py`,
`app.py`) against its specification.

The Python code is shallowly embedded: strings are Lean `String`s over their
character lists, Python `None`-able table cells are `Option String`, Python
floats are modelled as exact rationals (`ℚ`), and in-place dict mutation is
modelled by explicit state passing (each per-record step returns both the
accept/reject result and the post-call state of its input record).
-/

/-- `Char.isWhitespace`, the model of Python's whitespace test used by
`str.strip`, `str.split()` and `str.isspace`. -/
def isWsC (c : Char) : Bool := c.isWhitespace

/-- Model of Python `str.strip()` on a character list: drop leading and
trailing whitespace. -/
def stripChars (l : List Char) : List Char :=
  (((l.dropWhile isWsC).reverse).dropWhile isWsC).reverse

/-- Model of Python `str.strip()`. -/
def pyStrip (s : String) : String := ⟨stripChars s.data⟩

/-- Model of Python `str.lower()` (ASCII case folding, matching the data
handled by the repository). -/
def pyLower (s : String) : String := ⟨s.data.map Char.toLower⟩

/-- Split a character list at every occurrence of a single character
(Python `str.split(sep)` for a one-character separator, keeping empties). -/
def splitChar (c : Char) : List Char → List (List Char)
  | [] => [[]]
  | a :: rest =>
    let r := splitChar c rest
    if a = c then [] :: r
    else
      match r with
      | [] => [[a]]
      | h :: t => (a :: h) :: t

/-- Scanner for `splitOnSubAux`: `skip` counts separator characters still to
be consumed after a match was emitted (structural recursion on the list so
that the definition reduces inside `decide`). -/
def goSplit (pat : List Char) : List Char → Nat → List (List Char)
  | [], _ => [[]]
  | _ :: rest, skip + 1 => goSplit pat rest skip
  | c :: rest, 0 =>
    if pat.isPrefixOf (c :: rest) ∧ pat ≠ [] then
      [] :: goSplit pat rest (pat.length - 1)
    else
      match goSplit pat rest 0 with
      | [] => [[c]]
      | h :: t => (c :: h) :: t

/-- Split a character list at every non-overlapping occurrence of the
(non-empty) pattern, scanning left to right: the model of Python
`str.split(sep)` for a multi-character separator. -/
def splitOnSubAux (pat : List Char) (l : List Char) : List (List Char) :=
  goSplit pat l 0

/-- Model of Python `str.count(sep)`: number of non-overlapping occurrences,
which is one less than the number of split parts. -/
def pyCount (pat : String) (s : String) : Nat :=
  (splitOnSubAux pat.data s.data).length - 1

/-- Model of the Python substring test `pat in s`. -/
def containsSub (pat : String) (s : String) : Bool :=
  decide (0 < pyCount pat s)

/-- Split a character list on a predicate, keeping empties between adjacent
separator characters (used with a whitespace predicate to model Python
`str.split()` after filtering out the empties). -/
def splitPred (p : Char → Bool) : List Char → List (List Char)
  | [] => [[]]
  | a :: rest =>
    let r := splitPred p rest
    if p a then [] :: r
    else
      match r with
      | [] => [[a]]
      | h :: t => (a :: h) :: t

/-- Scanner for `splitWs2`: the flag records whether the scanner is still
inside a whitespace run whose split was already emitted. -/
def goWs2 : List Char → Bool → List (List Char)
  | [], _ => [[]]
  | c :: rest, true =>
    if isWsC c then goWs2 rest true
    else
      match goWs2 rest false with
      | [] => [[c]]
      | h :: t => (c :: h) :: t
  | c :: rest, false =>
    if isWsC c ∧ isWsC (rest.headD 'x') then [] :: goWs2 rest true
    else
      match goWs2 rest false with
      | [] => [[c]]
      | h :: t => (c :: h) :: t

/-- Model of Python `re.split(r'\s{2,}', line)`: split on each maximal run of
at least two whitespace characters, keeping the raw (unstripped) parts. -/
def splitWs2 (l : List Char) : List (List Char) := goWs2 l false

/-- Decimal digit character for `d < 10` (`chr(48 + d)`). -/
def digitChar (d : Nat) : Char := Char.ofNat (48 + d)

/-- Decimal rendering of a natural number as a character list: the model of
Python's number-to-string formatting inside f-strings. -/
def natToChars (n : Nat) : List Char :=
  if _h : n < 10 then [digitChar n]
  else natToChars (n / 10) ++ [digitChar (n % 10)]
  termination_by n
  decreasing_by
    exact Nat.div_lt_self (by omega) (by omega)

/-- Decimal rendering of a natural number as a string. -/
def natToStr (n : Nat) : String := ⟨natToChars n⟩

/-- Python `enumerate` over a list, starting at index `n`. -/
def pyEnum (n : Nat) : List α → List (Nat × α)
  | [] => []
  | a :: l => (n, a) :: pyEnum (n + 1) l

/-!
## Data model

A Table Record (`table_extractor.py` extraction result, `app.py` display
input).  Cells and headers are `Option String` (`none` models Python `None`);
`accuracy` is `Option (Option ℚ)`: the outer layer models presence of the
`'accuracy'` key in the dict, the inner layer a possibly-`None` value.
Passive fields of the Python dict that no filter or merger reads
(`table_id`, `data`, `whitespace`, `extraction_method`) are omitted.
-/

structure TableRec where
  page : Int
  rows : List (List (Option String))
  headers : List (Option String)
  shape : Nat × Nat
  accuracy : Option (Option ℚ)
  deriving DecidableEq, Repr

/-!
## Table Quality Filter, extraction path
(`TableExtractor._filter_tables_by_quality`, `src/table_extractor.py` 311-404)
-/

/-- Per-cell cleaning: `str(cell).strip() if cell is not None else ""`. -/
def cleanCell (c : Option String) : String :=
  match c with
  | none => ""
  | some s => pyStrip s

/-- Row cleaning of `_filter_tables_by_quality`: strip every cell, keep only
rows with at least one non-empty cell. -/
def cleanRows (rows : List (List (Option String))) : List (List String) :=
  (rows.map (fun r => r.map cleanCell)).filter (fun r => r.any (fun c => c != ""))

/-- `Column {i+1}` default header of `_filter_tables_by_quality`. -/
def colHeader (i : Nat) : String := "Column " ++ natToStr (i + 1)

/-- Total cell count of the cleaned rows. -/
def totalCellsOf (cleaned : List (List String)) : Nat :=
  (cleaned.map List.length).sum

/-- Empty-cell count of the cleaned rows. -/
def emptyCellsOf (cleaned : List (List String)) : Nat :=
  (cleaned.map (fun r => (r.filter (fun c => c == "")).length)).sum

/-- The distinct lower-cased, re-stripped non-empty cell values of the cleaned
rows (`unique_values` in `_filter_tables_by_quality`); only its length is
ever used, so the list order is irrelevant. -/
def uniqueValsOf (cleaned : List (List String)) : List String :=
  ((cleaned.flatten.filter (fun c => c != "")).map (fun c => pyStrip (pyLower c))).dedup

/-- The `'accuracy'`-based rejection of the extraction path:
`accuracy is not None and accuracy < 0.3` (a missing key and a `None` value
both read back as Python `None`).  The comparison `q < 3/10` is written over
the numerator and denominator so that the definition stays
kernel-computable; `accuracyThreshold_iff` below proves the encoding is
exactly `q < 3/10`. -/
def accuracyRejected (t : TableRec) : Bool :=
  match t.accuracy with
  | some (some q) => decide (q.num * 10 < 3 * (q.den : Int))
  | _ => false

/-- Header cleaning of `_filter_tables_by_quality`:
`str(h).strip() if h is not None else f"Column {i+1}"`. -/
def cleanHeader (p : Nat × Option String) : String :=
  match p.2 with
  | some s => pyStrip s
  | none => colHeader p.1

/-- The in-place update `table['rows'] = cleaned_rows;
table['shape'] = (len(cleaned_rows), len(cleaned_rows[0]) if cleaned_rows else 0)`
performed once a record reaches the cleaning step. -/
def mutatedRec (t : TableRec) : TableRec :=
  { t with rows := (cleanRows t.rows).map (fun r => r.map some),
           shape := ((cleanRows t.rows).length, ((cleanRows t.rows).headD []).length) }

/-- The header list installed on an accepted record: the cleaned existing
headers when the record has a truthy `'headers'` entry, else default headers
for `num_cols = table['shape'][1] if table['shape'][1] > 0 else
len(cleaned_rows[0])` (`table['shape']` has already been overwritten at this
point). -/
def newHeaders (t : TableRec) : List String :=
  if t.headers ≠ [] then (pyEnum 0 t.headers).map cleanHeader
  else
    (List.range (if 0 < (mutatedRec t).shape.2 then (mutatedRec t).shape.2
                 else ((cleanRows t.rows).headD []).length)).map colHeader

/-- The final state of an accepted record (rows, shape and headers all
overwritten in place). -/
def acceptedRec (t : TableRec) : TableRec :=
  { mutatedRec t with headers := (newHeaders t).map some }

/-- The loop body of `_filter_tables_by_quality` for one record.  The Python
code mutates the record dict in place (`table['rows'] = ...` etc.), so the
embedding returns the pair (accept/reject result, post-call state of the
input record); on acceptance the appended record is the mutated input.  Note
that the rows/shape mutation happens before the mostly-empty and diversity
checks, so records rejected there are still left mutated. -/
def processTable (t : TableRec) : Option TableRec × TableRec :=
  if t.rows.length < 2 ∨ t.shape.2 < 2 then (none, t)
  else if accuracyRejected t then (none, t)
  else if (cleanRows t.rows).length < 2 then (none, t)
  else if 0 < totalCellsOf (cleanRows t.rows) ∧
      3 * totalCellsOf (cleanRows t.rows) < 5 * emptyCellsOf (cleanRows t.rows) then
    (none, mutatedRec t)
  else if (uniqueValsOf (cleanRows t.rows)).length < 3 then (none, mutatedRec t)
  else (some (acceptedRec t), acceptedRec t)

/-- `_filter_tables_by_quality`: the accepted (and mutated) records, in input
order. -/
def filterTablesByQuality : List TableRec → List TableRec
  | [] => []
  | t :: ts =>
    match (processTable t).1 with
    | some t2 => t2 :: filterTablesByQuality ts
    | none => filterTablesByQuality ts

/-- The state of the input record list after `_filter_tables_by_quality`
returns (the list object itself is not rebuilt by the caller; its dicts are
mutated in place). -/
def inputStatesAfterFilter (l : List TableRec) : List TableRec :=
  l.map (fun t => (processTable t).2)

/-!
## Result Merger (`TableExtractor._merge_table_results`, 252-309)
Cell counts are `shape[0] * shape[1]`; the Python float comparison
`lt_cell_count >= stream_cell_count * 0.7` is modelled exactly over ℕ as
`7 * stream ≤ 10 * lattice`.
-/

/-- `rows × cols` of a record's `shape` field. -/
def cellCount (t : TableRec) : Nat := t.shape.1 * t.shape.2

/-- One iteration of the stream-table loop of `_merge_table_results`:
state is (merged list so far, pages already represented). -/
def mergeStep (lattice : List TableRec) (acc : List TableRec × List Int)
    (s : TableRec) : List TableRec × List Int :=
  if s.page ∈ acc.2 then
    if (lattice.filter (fun lt => lt.page == s.page)).any
        (fun lt => decide (7 * cellCount s ≤ 10 * cellCount lt)) then acc
    else (acc.1 ++ [s], acc.2)
  else (acc.1 ++ [s], s.page :: acc.2)

/-- `_merge_table_results`. -/
def mergeTableResults (lattice stream : List TableRec) : List TableRec :=
  if stream = [] then lattice
  else if lattice = [] then stream
  else (stream.foldl (mergeStep lattice) (lattice, lattice.map (·.page))).1

/-!
## Table Quality Filter, display path
(`filter_tables_for_display`, `app.py` 75-150)
-/

/-- Python `str(cell)` on a possibly-`None` cell: `None` renders as the
string `"None"`. -/
def strOfCell (c : Option String) : String :=
  match c with
  | none => "None"
  | some s => s

/-- `str(cell).strip() if cell else ""` of the display filter's content loop
(a `None` cell and an empty-string cell are both falsy). -/
def displayCellStr (c : Option String) : String :=
  match c with
  | none => ""
  | some s => if s = "" then "" else pyStrip s

/-- `table.get('accuracy', 1.0)` of the display filter. -/
def dispAccGet (t : TableRec) : Option ℚ :=
  match t.accuracy with
  | none => some 1
  | some v => v

/-- The display path's accuracy rejection:
`accuracy is not None and accuracy < 0.4` on `table.get('accuracy', 1.0)`.
The comparison `q < 2/5` is written over the numerator and denominator so
that the definition stays kernel-computable; `dispAccuracyThreshold_iff`
below proves the encoding is exactly `q < 2/5`. -/
def dispAccuracyRejected (t : TableRec) : Bool :=
  match dispAccGet t with
  | some q => decide (q.num * 5 < 2 * (q.den : Int))
  | none => false

/-- The keyword list of the display filter's header-likeness test. -/
def headerWords : List String :=
  ["column", "header", "title", "name", "field", "table"]

/-- One row's normalized content in the header-likeness loop:
`str(cell).strip().lower() for cell in row if str(cell).strip()`. -/
def rowContentOf (row : List (Option String)) : List String :=
  row.filterMap (fun c =>
    let s := pyStrip (strOfCell c)
    if s = "" then none else some (pyLower s))

/-- Whether a row counts as header-like for the display filter. -/
def rowHeaderLike (row : List (Option String)) : Bool :=
  (rowContentOf row).any (fun content => headerWords.any (fun w => containsSub w content))

/-- The rejection chain of `filter_tables_for_display` for one record (each
`continue` of the Python loop is one `false` branch); `true` means the record
is appended to `filtered`.  Ratio comparisons against the float literals 0.4
and the float half of `len(rows) / 2` are modelled exactly over ℕ. -/
def displayKeep (t : TableRec) : Bool :=
  if t.shape.1 < 2 ∨ t.shape.2 < 2 then false
  else if dispAccuracyRejected t then false
  else if t.rows = [] ∨ t.rows.length < 2 then false
  else
    let cells := t.rows.flatten
    let total := cells.length
    let nonEmptyVals := cells.filterMap (fun c =>
      let s := displayCellStr c
      if s = "" then none else some s)
    if total = 0 ∨ 5 * nonEmptyVals.length < 2 * total then false
    else if ((nonEmptyVals.map pyLower).dedup).length < 4 then false
    else if t.rows.length < 2 * (t.rows.filter rowHeaderLike).length then false
    else true

/-- First component of the display sort key, `t.get('accuracy', 0)`.  (With a
present-but-`None` accuracy Python's tuple comparison would raise `TypeError`
when mixed with numeric keys; the model reads such a key as 0.) -/
def dispSortAcc (t : TableRec) : ℚ :=
  match t.accuracy with
  | some (some q) => q
  | _ => 0

/-- Third component of the display sort key:
`len(set(str(cell).strip().lower() for row in rows for cell in row if str(cell).strip()))`. -/
def dispUniqueCount (t : TableRec) : Nat :=
  ((t.rows.flatten.filterMap (fun c =>
    let s := pyStrip (strOfCell c)
    if s = "" then none else some (pyLower s))).dedup).length

/-- The display sort key triple (accuracy, cell count, unique-value count). -/
def dispSortKey (t : TableRec) : ℚ × Nat × Nat :=
  (dispSortAcc t, t.shape.1 * t.shape.2, dispUniqueCount t)

/-- Lexicographic order on display sort keys (Python tuple `<=`). -/
def keyLE (a b : ℚ × Nat × Nat) : Prop :=
  a.1 < b.1 ∨ (a.1 = b.1 ∧ (a.2.1 < b.2.1 ∨ (a.2.1 = b.2.1 ∧ a.2.2 ≤ b.2.2)))

instance (a b : ℚ × Nat × Nat) : Decidable (keyLE a b) := by
  unfold keyLE; infer_instance

/-- Stable descending insertion: place `x` before the first element whose key
is ≤ its own, after all strictly greater keys.  Python's stable
`list.sort(key=..., reverse=True)` orders by key descending with equal keys
in original order, which is exactly what this insertion sort computes. -/
def insertByKeyDesc (x : TableRec) : List TableRec → List TableRec
  | [] => [x]
  | y :: l =>
    if keyLE (dispSortKey y) (dispSortKey x) then x :: y :: l
    else y :: insertByKeyDesc x l

/-- Stable descending sort by `dispSortKey` (model of
`filtered.sort(key=..., reverse=True)`). -/
def sortByKeyDesc (l : List TableRec) : List TableRec :=
  l.foldr insertByKeyDesc []

/-- `filter_tables_for_display`: keep the records passing the quality checks,
sort them descending by (accuracy, cell count, unique count), keep the top 3.
No record is mutated on this path. -/
def filterTablesForDisplay (l : List TableRec) : List TableRec :=
  if l = [] then []
  else (sortByKeyDesc (l.filter displayKeep)).take 3

/-!
## CSV converter (`src/csv_converter.py`)
-/

/-- The candidate delimiter list of `_try_delimiter_detection` (line 229). -/
def pyDelimiters : List String := [",", "\t", "|", ":", ";", "  "]

/-- The per-delimiter statistics loop of `_try_delimiter_detection` over the
first 20 lines: returns (total occurrence count, constancy flag).  State is
(total, consistent, previous non-zero count, initialised to -1). -/
def delimStats (lines : List String) (d : String) : Nat × Bool :=
  let st := (lines.take 20).foldl
    (fun (acc : Nat × Bool × Int) line =>
      let c := pyCount d line
      ( acc.1 + c,
        (if 0 ≤ acc.2.2 ∧ 0 < c ∧ (c : Int) ≠ acc.2.2 then false else acc.2.1),
        (if 0 < c then (c : Int) else acc.2.2) ))
    (0, true, -1)
  (st.1, st.2.1)

/-- `score = total, doubled if consistent` of `_try_delimiter_detection`. -/
def delimScore (lines : List String) (d : String) : Nat :=
  let st := delimStats lines d
  if st.2 then st.1 * 2 else st.1

/-- One step of the best-delimiter selection loop: strictly greater score
replaces the current best, so ties keep the earlier delimiter. -/
def bestDelimStep (lines : List String) (acc : Option String × Nat)
    (d : String) : Option String × Nat :=
  if acc.2 < delimScore lines d then (some d, delimScore lines d) else acc

/-- The best-delimiter selection loop of `_try_delimiter_detection`, with
initial state (`None`, 0). -/
def bestDelimiter (lines : List String) : Option String × Nat :=
  pyDelimiters.foldl (bestDelimStep lines) (none, 0)

/-- Splitting one line by the selected delimiter:
`[col.strip() for col in line.split(d) if col.strip()]` (the `'  '` branch of
the Python code performs the identical `line.split('  ')`). -/
def splitAndClean (d : String) (line : String) : List String :=
  ((splitOnSubAux d.data line.data).map (fun cs => pyStrip ⟨cs⟩)).filter
    (fun c => c != "")

/-- `CSVConverter._try_delimiter_detection` (lines 222-282). -/
def tryDelimiterDetection (lines : List String) : List (List String) :=
  if lines = [] then []
  else
    match (bestDelimiter lines).1 with
    | some d =>
      if 10 < (bestDelimiter lines).2 then
        (lines.map (splitAndClean d)).filter (fun row => row ≠ [])
      else []
    | none => []

/-- Python `str.isupper()`: at least one cased character and no lower-case
cased character (ASCII model). -/
def pyIsUpper (l : List Char) : Bool :=
  l.any (fun c => c.isUpper || c.isLower) && l.all (fun c => !c.isLower)

/-- Python `line.split()`: split on whitespace runs, dropping empties. -/
def pyWords (s : String) : List String :=
  ((splitPred isWsC s.data).map (fun cs => (⟨cs⟩ : String))).filter
    (fun w => w != "")

/-- The header-likeness test of `_try_line_grouping` (lines 296-301): short,
or fully upper-case, or ends with a colon, or every whitespace-separated
token starts with an upper-case letter. -/
def isHeaderLike (s : String) : Bool :=
  decide (s.data.length < 40) || pyIsUpper s.data ||
    (s.data.getLast? == some ':') ||
    (pyWords s).all (fun w =>
      match w.data with
      | c :: _ => c.isUpper
      | [] => true)

/-- `has_numbers`: the line contains at least one digit. -/
def hasDigitStr (s : String) : Bool := s.data.any (fun c => c.isDigit)

/-- The loop body of `_try_line_grouping`: state is
(emitted groups, current row buffer, `pattern_count`). -/
def lineGroupStep (st : List (List String) × List String × Nat) (line : String) :
    List (List String) × List String × Nat :=
  let data := st.1
  let cur := st.2.1
  let pc := st.2.2
  if isHeaderLike line ∧ cur ≠ [] then (data ++ [cur], [line], 0)
  else if hasDigitStr line ∧ 0 < pc then (data, cur ++ [line], pc + 1)
  else ((if cur ≠ [] then data ++ [cur] else data), [line], 1)

/-- `CSVConverter._try_line_grouping` (lines 284-327). -/
def tryLineGrouping (lines : List String) : List (List String) :=
  if lines = [] then []
  else
    let st := lines.foldl lineGroupStep ([], [], 0)
    if st.2.1 ≠ [] then st.1 ++ [st.2.1] else st.1

/-- The whitespace character positions of a line (the per-line `set` of
`_try_fixed_width_columns`, kept in ascending order). -/
def wsPositions (l : List Char) : List Nat :=
  (List.range l.length).filter (fun i => isWsC (l.getD i 'x'))

/-- Consecutive boundary pairs `(boundaries[i], boundaries[i+1])`. -/
def boundaryPairs : List Nat → List (Nat × Nat)
  | a :: b :: r => (a, b) :: boundaryPairs (b :: r)
  | _ => []

/-- The per-line slicing loop of `_try_fixed_width_columns`: slice between
consecutive boundaries, `break` once a start position passes the line end,
strip each slice and keep the non-empty ones. -/
def sliceRow (l : List Char) : List (Nat × Nat) → List String
  | [] => []
  | (s, e) :: rest =>
    if l.length ≤ s then []
    else
      let cell := pyStrip ⟨(l.drop s).take (min e l.length - s)⟩
      (if cell != "" then [cell] else []) ++ sliceRow l rest

/-- `CSVConverter._try_fixed_width_columns` (lines 172-220). -/
def tryFixedWidthColumns (lines : List String) : List (List String) :=
  if lines = [] ∨ lines.length < 2 then []
  else
    let spaces := (lines.take 10).map (fun s => wsPositions s.data)
    match spaces with
    | [] => []
    | s0 :: rest =>
      let common := rest.foldl (fun acc s => acc.filter (fun i => i ∈ s)) s0
      if common = [] then []
      else
        let boundaries := 0 :: (common ++ [1000])
        let b1 : Nat := (common ++ [1000]).headD 0
        let pairs := boundaryPairs boundaries
        lines.filterMap (fun line =>
          (if line.data.length < b1 then none
           else
             let row := sliceRow line.data pairs
             if row ≠ [] then some row else none : Option (List String)))

/-- Character-class signature of `_try_consistent_patterns.get_pattern`:
digit → `d`, alpha → `a`, whitespace → `s`, other → `o`. -/
def charClass (c : Char) : Char :=
  if c.isDigit then 'd'
  else if c.isAlpha then 'a'
  else if c.isWhitespace then 's'
  else 'o'

/-- The full pattern of a line. -/
def patternOf (s : String) : List Char := s.data.map charClass

/-- Run-length compression of consecutive equal symbols
(`''.join(a for a, _ in groupby(pattern))`). -/
def collapseRuns : List Char → List Char
  | [] => []
  | [c] => [c]
  | a :: b :: r =>
    if a = b then collapseRuns (b :: r) else a :: collapseRuns (b :: r)

/-- The distinct keys of a list in first-occurrence order (the insertion
order of the Python `groups` dict). -/
def firstKeysAux (seen : List (List Char)) : List (List Char) → List (List Char)
  | [] => []
  | k :: rest =>
    if k ∈ seen then firstKeysAux seen rest
    else k :: firstKeysAux (k :: seen) rest

/-- Distinct simplified patterns in first-occurrence order. -/
def firstKeys (l : List (List Char)) : List (List Char) := firstKeysAux [] l

/-- The delimiter list of `_try_consistent_patterns` (line 442; note the
order differs from `_try_delimiter_detection`). -/
def cpDelims : List String := [",", "\t", "  ", "|", ";", ":"]

/-- Splitting one line inside `_try_consistent_patterns`: the `'  '` case
splits on runs of two or more whitespace characters keeping the raw parts
that strip to something non-empty; every other delimiter splits literally
and strips the kept parts. -/
def cpSplit (d : String) (line : String) : List String :=
  if d = "  " then
    ((splitWs2 line.data).map (fun cs => (⟨cs⟩ : String))).filter
      (fun p => pyStrip p != "")
  else
    ((splitOnSubAux d.data line.data).map (fun cs => pyStrip (⟨cs⟩ : String))).filter
      (fun p => p != "")

/-- The fallback per-line splitting of `_try_consistent_patterns` at common
whitespace positions (lines 490-507): slice between consecutive common
positions, strip, keep non-empty parts. -/
def cpFallbackSplitAux (l : List Char) (start : Nat) : List Nat → List String
  | [] =>
    if start < l.length then
      let part := pyStrip ⟨l.drop start⟩
      if part != "" then [part] else []
    else []
  | idx :: rest =>
    if start < idx then
      let part := pyStrip ⟨(l.drop start).take (idx - start)⟩
      (if part != "" then [part] else []) ++ cpFallbackSplitAux l (idx + 1) rest
    else cpFallbackSplitAux l (idx + 1) rest

/-- `CSVConverter._try_consistent_patterns` (lines 390-510). -/
def tryConsistentPatterns (lines : List String) : List (List String) :=
  if lines = [] ∨ lines.length < 3 then []
  else
    let patterns := lines.map (fun s => collapseRuns (patternOf s))
    let keys := firstKeys patterns
    let largest := keys.foldl
      (fun (acc : List Nat) k =>
        let g := (pyEnum 0 patterns).filterMap
          (fun p => (if p.2 = k then some p.1 else none : Option Nat))
        if acc.length < g.length then g else acc) []
    if largest.length < 3 then []
    else
      let sample := (largest.take 5).map (fun i => lines.getD i "")
      let best := cpDelims.foldl
        (fun (acc : Option String × Nat) d =>
          let sl := sample.map (cpSplit d)
          let cc := sl.map List.length
          let ok := cc.all (fun c => c = cc.headD 0) ∧ 1 < cc.headD 0
          let score := if ok then cc.headD 0 * sl.length else 0
          if acc.2 < score then (some d, score) else acc)
        (none, 0)
      match best.1 with
      | some d => largest.map (fun i => cpSplit d (lines.getD i ""))
      | none =>
        let spacePatterns := sample.map (fun s => wsPositions s.data)
        match spacePatterns with
        | [] => []
        | p0 :: prest =>
          let common := prest.foldl (fun acc s => acc.filter (fun i => i ∈ s)) p0
          if common = [] then []
          else
            largest.filterMap (fun i =>
              (let parts := cpFallbackSplitAux (lines.getD i "").data 0 common
               if parts ≠ [] then some parts else none : Option (List String)))

/-!
## Structure Scorer (`CSVConverter._score_table_structure`, lines 329-388)
Float arithmetic is modelled exactly over ℚ.
-/

/-- Mean of the per-row column counts. -/
def avgColsQ (colCounts : List Nat) : ℚ :=
  (colCounts.sum : ℚ) / (colCounts.length : ℚ)

/-- Population variance of the per-row column counts. -/
def varianceQ (colCounts : List Nat) : ℚ :=
  ((colCounts.map (fun c => ((c : ℚ) - avgColsQ colCounts) ^ 2)).sum) /
    (colCounts.length : ℚ)

/-- `consistency_score`: 3 for identical column counts, else
`max(0, 3 - variance/5)`. -/
def consistencyScoreQ (colCounts : List Nat) : ℚ :=
  if colCounts.all (fun c => c = colCounts.headD 0) then 3
  else max 0 (3 - varianceQ colCounts / 5)

/-- `cols_score = min(3, avg_cols / 2)`. -/
def colsScoreQ (colCounts : List Nat) : ℚ :=
  min 3 (avgColsQ colCounts / 2)

/-- `cell_counts` of the scorer's content loop: one per cell. -/
def scorerCellCount (data : List (List String)) : Nat :=
  (data.map List.length).sum

/-- `numeric_cells` of the scorer's content loop: cells containing a digit
(`re.search(r'\d', cell)`). -/
def scorerNumericCount (data : List (List String)) : Nat :=
  (data.map (fun row => (row.filter hasDigitStr).length)).sum

/-- `content_score = 2 * numeric_cells / cell_counts` (0 when there are no
cells). -/
def contentScoreQ (data : List (List String)) : ℚ :=
  if 0 < scorerCellCount data then
    ((scorerNumericCount data : ℚ) / (scorerCellCount data : ℚ)) * 2
  else 0

/-- `row_score = min(2, row_count / 10)`. -/
def rowScoreQ (rowCount : Nat) : ℚ := min 2 ((rowCount : ℚ) / 10)

/-- `CSVConverter._score_table_structure`. -/
def scoreTableStructure (data : List (List String)) : ℚ :=
  if data = [] then 0
  else if data.length ≤ 1 then 1
  else
    consistencyScoreQ (data.map List.length) + colsScoreQ (data.map List.length) +
      contentScoreQ data + rowScoreQ data.length

/-!
## Text-to-Table Orchestrator (`CSVConverter.text_to_table`, lines 106-170)
The terminal DataFrame/CSV write is I/O owned by the caller; the model stops
at the padded rectangular data.
-/

/-- The approach list, in the fixed evaluation order of `text_to_table`. -/
def csvApproaches : List (List String → List (List String)) :=
  [tryFixedWidthColumns, tryDelimiterDetection, tryLineGrouping,
   tryConsistentPatterns]

/-- `[line.strip() for line in text.split('\n') if line.strip()]`. -/
def textLines (text : String) : List String :=
  ((splitChar '\n' text.data).map (fun l => pyStrip ⟨l⟩)).filter
    (fun s => s != "")

/-- The scoring fold of `text_to_table`: keep the best multi-row candidate,
replacing only on strictly greater score. -/
def chooseBestData (lines : List String) : Option (List (List String)) × ℚ :=
  csvApproaches.foldl
    (fun acc f =>
      let data := f lines
      if data ≠ [] ∧ 1 < data.length then
        let score := scoreTableStructure data
        if acc.2 < score then (some data, score) else acc
      else acc)
    (none, 0)

/-- The chosen data of `text_to_table` before padding: the best-scoring
candidate, with the one-cell-per-line fallback when no candidate was chosen
or the best one is degenerate. -/
def textToTableData (text : String) : List (List String) :=
  let lines := textLines text
  let data0 :=
    match (chooseBestData lines).1 with
    | some d => d
    | none => lines.map (fun l => [l])
  if data0 = [] ∨ data0.length ≤ 1 ∨ data0.all (fun r => r.length ≤ 1) then
    lines.map (fun l => [l])
  else data0

/-- `max(len(row) for row in data) if data else 0`. -/
def maxColCount (data : List (List String)) : Nat :=
  (data.map List.length).foldr max 0

/-- The padding step of `text_to_table`: extend each shorter row on the right
with empty-string cells up to the maximum column count. -/
def padRows (data : List (List String)) : List (List String) :=
  let m := maxColCount data
  data.map (fun r => r ++ List.replicate (m - r.length) "")

/-- The rows of the table emitted by `text_to_table`. -/
def textToTableRows (text : String) : List (List String) :=
  padRows (textToTableData text)

/-- The synthesized `Column_1 … Column_N` headers of `text_to_table`. -/
def textToTableHeaders (text : String) : List String :=
  (List.range (maxColCount (textToTableData text))).map
    (fun i => "Column_" ++ natToStr (i + 1))

/-!
## Metadata fallback of `CSVConverter.convert_pdf_to_csv` (lines 95-104)
The branch taken when the input dict has no truthy `'tables'` and no truthy
`'text'`: a `Metadata_Key,Metadata_Value` header row followed by one row per
metadata key/value pair.
-/

/-- The rows written by the metadata fallback branch. -/
def metadataFallbackRows (metadata : List (String × String)) : List (List String) :=
  ["Metadata_Key", "Metadata_Value"] :: metadata.map (fun kv => [kv.1, kv.2])

/-!
## Helper lemmas: `pyStrip`
-/

theorem dropWhile_head_not (p : α → Bool) (l : List α) :
    ∀ x, (l.dropWhile p).head? = some x → p x = false := by
  induction l with
  | nil => intro x h; simp at h
  | cons a l ih =>
    intro x h
    rw [List.dropWhile_cons] at h
    split at h
    · exact ih x h
    · next hpa =>
      simp only [List.head?_cons, Option.some.injEq] at h
      subst h
      exact Bool.eq_false_iff.mpr hpa

theorem dropWhile_eq_self_of_head (p : α → Bool) (l : List α)
    (h : ∀ x, l.head? = some x → p x = false) : l.dropWhile p = l := by
  cases l with
  | nil => rfl
  | cons a l =>
    have ha := h a rfl
    rw [List.dropWhile_cons, if_neg (by simp [ha])]

theorem getLast?_dropWhile_ne_nil (p : α → Bool) (l : List α)
    (h : l.dropWhile p ≠ []) : (l.dropWhile p).getLast? = l.getLast? := by
  induction l with
  | nil => simp at h
  | cons a l ih =>
    by_cases hpa : p a
    · rw [List.dropWhile_cons, if_pos hpa] at h ⊢
      have hl : l ≠ [] := by
        intro e; subst e; simp at h
      rw [ih h]
      cases l with
      | nil => exact absurd rfl hl
      | cons b m => rw [List.getLast?_cons_cons]
    · rw [List.dropWhile_cons, if_neg hpa]

theorem stripChars_head_not (l : List Char) :
    ∀ x, (stripChars l).head? = some x → isWsC x = false := by
  intro x h
  unfold stripChars at h
  rw [List.head?_reverse] at h
  have hne : (l.dropWhile isWsC).reverse.dropWhile isWsC ≠ [] := by
    intro e; rw [e] at h; simp at h
  rw [getLast?_dropWhile_ne_nil _ _ hne, List.getLast?_reverse] at h
  exact dropWhile_head_not isWsC _ x h

theorem stripChars_getLast_not (l : List Char) :
    ∀ x, (stripChars l).getLast? = some x → isWsC x = false := by
  intro x h
  unfold stripChars at h
  rw [List.getLast?_reverse] at h
  exact dropWhile_head_not isWsC _ x h

theorem stripChars_eq_self (l : List Char)
    (h1 : ∀ x, l.head? = some x → isWsC x = false)
    (h2 : ∀ x, l.getLast? = some x → isWsC x = false) :
    stripChars l = l := by
  unfold stripChars
  rw [dropWhile_eq_self_of_head _ _ h1,
      dropWhile_eq_self_of_head _ _
        (by intro x hx; rw [List.head?_reverse] at hx; exact h2 x hx),
      List.reverse_reverse]

theorem stripChars_idem (l : List Char) :
    stripChars (stripChars l) = stripChars l :=
  stripChars_eq_self _ (stripChars_head_not l) (stripChars_getLast_not l)

theorem pyStrip_idem (s : String) : pyStrip (pyStrip s) = pyStrip s :=
  congrArg String.mk (stripChars_idem s.data)

theorem pyStrip_empty : pyStrip "" = "" := rfl

/-!
## Helper lemmas: decimal rendering and default headers
-/

theorem digitChar_not_ws (d : Nat) (h : d < 10) : isWsC (digitChar d) = false := by
  interval_cases d <;> decide

theorem natToChars_ne_nil (n : Nat) : natToChars n ≠ [] := by
  rw [natToChars]
  split <;> simp

theorem natToChars_not_ws (n : Nat) : ∀ c ∈ natToChars n, isWsC c = false := by
  induction n using Nat.strong_induction_on with
  | _ n ih =>
    intro c hc
    rw [natToChars] at hc
    split at hc
    · next h =>
      simp only [List.mem_singleton] at hc
      subst hc
      exact digitChar_not_ws n h
    · next h =>
      rw [List.mem_append] at hc
      rcases hc with hc | hc
      · exact ih (n / 10) (Nat.div_lt_self (by omega) (by omega)) c hc
      · simp only [List.mem_singleton] at hc
        subst hc
        exact digitChar_not_ws (n % 10) (Nat.mod_lt _ (by omega))

theorem pyStrip_colHeader (i : Nat) : pyStrip (colHeader i) = colHeader i := by
  have hdata : (colHeader i).data = "Column ".data ++ natToChars (i + 1) := by
    unfold colHeader natToStr
    exact String.data_append _ _
  refine congrArg String.mk ?_
  rw [hdata]
  refine stripChars_eq_self _ ?_ ?_
  · intro x hx
    rw [show ("Column ".data ++ natToChars (i + 1)).head? = some 'C' from rfl] at hx
    simp only [Option.some.injEq] at hx
    subst hx
    decide
  · intro x hx
    rw [List.getLast?_append] at hx
    cases hgl : (natToChars (i + 1)).getLast? with
    | none =>
      exact absurd (List.getLast?_eq_none_iff.mp hgl) (natToChars_ne_nil (i + 1))
    | some y =>
      rw [hgl] at hx
      simp only [Option.or_some, Option.some.injEq] at hx
      subst hx
      exact natToChars_not_ws (i + 1) y (List.mem_of_getLast?_eq_some hgl)

/-!
## Helper lemmas: the stable descending sort of the display filter
-/

theorem keyLE_total (a b : ℚ × Nat × Nat) : keyLE a b ∨ keyLE b a := by
  unfold keyLE
  rcases lt_trichotomy a.1 b.1 with h | h | h
  · exact Or.inl (Or.inl h)
  · rcases lt_trichotomy a.2.1 b.2.1 with h2 | h2 | h2
    · exact Or.inl (Or.inr ⟨h, Or.inl h2⟩)
    · rcases le_total a.2.2 b.2.2 with h3 | h3
      · exact Or.inl (Or.inr ⟨h, Or.inr ⟨h2, h3⟩⟩)
      · exact Or.inr (Or.inr ⟨h.symm, Or.inr ⟨h2.symm, h3⟩⟩)
    · exact Or.inr (Or.inr ⟨h.symm, Or.inl h2⟩)
  · exact Or.inr (Or.inl h)

theorem keyLE_trans (a b c : ℚ × Nat × Nat) (h1 : keyLE a b) (h2 : keyLE b c) :
    keyLE a c := by
  unfold keyLE at h1 h2 ⊢
  rcases h1 with h1 | ⟨e1, h1⟩
  · rcases h2 with h2 | ⟨e2, _⟩
    · exact Or.inl (h1.trans h2)
    · exact Or.inl (e2 ▸ h1)
  · rcases h2 with h2 | ⟨e2, h2⟩
    · exact Or.inl (e1 ▸ h2)
    · refine Or.inr ⟨e1.trans e2, ?_⟩
      rcases h1 with h1 | ⟨f1, h1⟩
      · rcases h2 with h2 | ⟨f2, _⟩
        · exact Or.inl (h1.trans h2)
        · exact Or.inl (f2 ▸ h1)
      · rcases h2 with h2 | ⟨f2, h2⟩
        · exact Or.inl (f1 ▸ h2)
        · exact Or.inr ⟨f1.trans f2, h1.trans h2⟩

theorem mem_insertByKeyDesc (x a : TableRec) (l : List TableRec) :
    a ∈ insertByKeyDesc x l ↔ a = x ∨ a ∈ l := by
  induction l with
  | nil => simp [insertByKeyDesc]
  | cons y l ih =>
    unfold insertByKeyDesc
    split
    · simp [List.mem_cons]
    · simp only [List.mem_cons, ih]
      tauto

theorem pairwise_insertByKeyDesc (x : TableRec) (l : List TableRec)
    (h : l.Pairwise (fun a b => keyLE (dispSortKey b) (dispSortKey a))) :
    (insertByKeyDesc x l).Pairwise
      (fun a b => keyLE (dispSortKey b) (dispSortKey a)) := by
  induction l with
  | nil => simp [insertByKeyDesc]
  | cons y l ih =>
    have h1 := List.pairwise_cons.mp h
    unfold insertByKeyDesc
    split
    · next hxy =>
      refine List.Pairwise.cons ?_ h
      intro b hb
      rcases List.mem_cons.mp hb with rfl | hb
      · exact hxy
      · exact keyLE_trans _ _ _ (h1.1 b hb) hxy
    · next hxy =>
      refine List.Pairwise.cons ?_ (ih h1.2)
      intro b hb
      rcases (mem_insertByKeyDesc x b l).mp hb with rfl | hb
      · rcases keyLE_total (dispSortKey y) (dispSortKey b) with hc | hc
        · exact absurd hc hxy
        · exact hc
      · exact h1.1 b hb

theorem pairwise_sortByKeyDesc (l : List TableRec) :
    (sortByKeyDesc l).Pairwise
      (fun a b => keyLE (dispSortKey b) (dispSortKey a)) := by
  induction l with
  | nil => exact List.Pairwise.nil
  | cons x l ih => exact pairwise_insertByKeyDesc x (sortByKeyDesc l) ih

theorem sortByKeyDesc_eq_self (l : List TableRec)
    (h : l.Pairwise (fun a b => keyLE (dispSortKey b) (dispSortKey a))) :
    sortByKeyDesc l = l := by
  induction l with
  | nil => rfl
  | cons x l ih =>
    have h1 := List.pairwise_cons.mp h
    show insertByKeyDesc x (sortByKeyDesc l) = x :: l
    rw [ih h1.2]
    cases l with
    | nil => rfl
    | cons y m =>
      unfold insertByKeyDesc
      rw [if_pos (h1.1 y (List.mem_cons_self _ _))]

theorem mem_sortByKeyDesc (a : TableRec) (l : List TableRec) :
    a ∈ sortByKeyDesc l ↔ a ∈ l := by
  induction l with
  | nil => simp [sortByKeyDesc]
  | cons x l ih =>
    show a ∈ insertByKeyDesc x (sortByKeyDesc l) ↔ _
    rw [mem_insertByKeyDesc, ih]
    simp [List.mem_cons, eq_comm]

/-!
## Helper lemmas: the extraction-path quality filter
-/

theorem pyStrip_cleanCell (c : Option String) :
    pyStrip (cleanCell c) = cleanCell c := by
  cases c with
  | none => rfl
  | some s => exact pyStrip_idem s

theorem mem_cleanRows (rows : List (List (Option String)))
    (r : List String) (hr : r ∈ cleanRows rows) :
    (∃ r0 ∈ rows, r = r0.map cleanCell) ∧ r.any (fun c => c != "") = true := by
  unfold cleanRows at hr
  rw [List.mem_filter] at hr
  obtain ⟨hmem, hne⟩ := hr
  rw [List.mem_map] at hmem
  obtain ⟨r0, hr0, hr0e⟩ := hmem
  exact ⟨⟨r0, hr0, hr0e.symm⟩, hne⟩

theorem cleanRows_cells_stripFixed (rows : List (List (Option String)))
    (r : List String) (hr : r ∈ cleanRows rows) :
    ∀ c ∈ r, pyStrip c = c := by
  obtain ⟨⟨r0, _, rfl⟩, _⟩ := mem_cleanRows rows r hr
  intro c hc
  rw [List.mem_map] at hc
  obtain ⟨c0, _, rfl⟩ := hc
  exact pyStrip_cleanCell c0

/-- Re-cleaning the already cleaned rows (re-wrapped as `some`-cells, the
state the Python mutation leaves them in) is the identity. -/
theorem cleanRows_reclean (rows : List (List (Option String))) :
    cleanRows ((cleanRows rows).map (fun r => r.map some)) = cleanRows rows := by
  have hmap : ((cleanRows rows).map (fun r => r.map some)).map
      (fun r => r.map cleanCell) = cleanRows rows := by
    rw [List.map_map]
    refine List.map_congr_left ?_ |>.trans (List.map_id _)
    intro r hr
    show (r.map some).map cleanCell = r
    rw [List.map_map]
    refine List.map_congr_left ?_ |>.trans (List.map_id _)
    intro c hc
    exact cleanRows_cells_stripFixed rows r hr c hc
  show (((cleanRows rows).map (fun r => r.map some)).map
      (fun r => r.map cleanCell)).filter _ = _
  rw [hmap]
  refine List.filter_eq_self.mpr ?_
  intro r hr
  exact (mem_cleanRows rows r hr).2

theorem cleanRows_row_lengths (t : TableRec)
    (hrect : ∀ r ∈ t.rows, r.length = t.shape.2) :
    ∀ r ∈ cleanRows t.rows, r.length = t.shape.2 := by
  intro r hr
  obtain ⟨⟨r0, hr0, rfl⟩, _⟩ := mem_cleanRows t.rows r hr
  rw [List.length_map]
  exact hrect r0 hr0

/-- The record well-formedness invariant of §3 of the spec restricted to what
the idempotence argument needs: every row has the full declared width. -/
def rectRec (t : TableRec) : Prop := ∀ r ∈ t.rows, r.length = t.shape.2

instance (t : TableRec) : Decidable (rectRec t) := by
  unfold rectRec
  infer_instance

/-- A record in the exact state `_filter_tables_by_quality` leaves accepted
records in. -/
def normalRec (u : TableRec) : Prop :=
  (cleanRows u.rows).map (fun r => r.map some) = u.rows ∧
  u.shape = ((cleanRows u.rows).length, ((cleanRows u.rows).headD []).length) ∧
  2 ≤ (cleanRows u.rows).length ∧
  2 ≤ u.shape.2 ∧
  accuracyRejected u = false ∧
  ¬ (0 < totalCellsOf (cleanRows u.rows) ∧
     3 * totalCellsOf (cleanRows u.rows) < 5 * emptyCellsOf (cleanRows u.rows)) ∧
  3 ≤ (uniqueValsOf (cleanRows u.rows)).length ∧
  u.headers ≠ [] ∧
  (∀ h ∈ u.headers, ∃ s, h = some s ∧ pyStrip s = s)

theorem headers_reclean (hl : List (Option String))
    (hh : ∀ h ∈ hl, ∃ s, h = some s ∧ pyStrip s = s) :
    ∀ n, ((pyEnum n hl).map cleanHeader).map some = hl := by
  induction hl with
  | nil => intro n; rfl
  | cons a l ih =>
    intro n
    obtain ⟨s, rfl, hs⟩ := hh a (List.mem_cons_self _ _)
    show some (cleanHeader (n, some s)) :: _ = _
    have : cleanHeader (n, some s) = s := hs
    rw [this, ih (fun h hm => hh h (List.mem_cons_of_mem _ hm)) (n + 1)]

theorem newHeaders_stripFixed (t : TableRec) :
    ∀ s ∈ newHeaders t, pyStrip s = s := by
  intro s hs
  unfold newHeaders at hs
  split at hs
  · rw [List.mem_map] at hs
    obtain ⟨p, _, rfl⟩ := hs
    cases hp2 : p.2 with
    | some s0 => simp only [cleanHeader, hp2]; exact pyStrip_idem s0
    | none => simp only [cleanHeader, hp2]; exact pyStrip_colHeader p.1
  · rw [List.mem_map] at hs
    obtain ⟨i, _, rfl⟩ := hs
    exact pyStrip_colHeader i

/-- A record in normal form passes every check of the filter loop body again
and comes out untouched. -/
theorem processTable_of_normal (u : TableRec) (h : normalRec u) :
    processTable u = (some u, u) := by
  obtain ⟨hrows, hshape, hlen, hcols, hacc, hempty, huniq, hhne, hhdr⟩ := h
  have hrl : u.rows.length = (cleanRows u.rows).length := by
    conv_lhs => rw [← hrows]
    rw [List.length_map]
  have hmut : mutatedRec u = u := by
    unfold mutatedRec
    rw [hrows, ← hshape]
  have hacc2 : acceptedRec u = u := by
    unfold acceptedRec
    rw [hmut]
    have hnh : newHeaders u = (pyEnum 0 u.headers).map cleanHeader := by
      unfold newHeaders
      rw [if_pos hhne]
    rw [hnh, headers_reclean u.headers hhdr 0]
  unfold processTable
  rw [if_neg (by omega), if_neg (by simp [hacc]), if_neg (by omega),
      if_neg hempty, if_neg (by omega), hacc2]

/-- On acceptance the returned record is exactly the post-call state of the
input record (the Python code appends the mutated input dict itself). -/
theorem processTable_accept_state (t t2 : TableRec)
    (h : (processTable t).1 = some t2) : (processTable t).2 = t2 := by
  unfold processTable at h ⊢
  split at h
  · exact absurd h (by simp)
  split at h
  · exact absurd h (by simp)
  split at h
  · exact absurd h (by simp)
  split at h
  · exact absurd h (by simp)
  split at h
  · exact absurd h (by simp)
  · simp only [Option.some.injEq] at h
    rename_i h1 h2 h3 h4 h5
    rw [if_neg h1, if_neg h2, if_neg h3, if_neg h4, if_neg h5, ← h]

theorem pyEnum_length (n : Nat) (l : List α) : (pyEnum n l).length = l.length := by
  induction l generalizing n with
  | nil => rfl
  | cons a l ih => simp [pyEnum, ih]

theorem accept_conditions (t t2 : TableRec) (h : (processTable t).1 = some t2) :
    ¬(t.rows.length < 2 ∨ t.shape.2 < 2) ∧ accuracyRejected t = false ∧
    ¬(cleanRows t.rows).length < 2 ∧
    ¬(0 < totalCellsOf (cleanRows t.rows) ∧
      3 * totalCellsOf (cleanRows t.rows) < 5 * emptyCellsOf (cleanRows t.rows)) ∧
    ¬(uniqueValsOf (cleanRows t.rows)).length < 3 ∧ t2 = acceptedRec t := by
  unfold processTable at h
  split at h
  · exact absurd h (by simp)
  split at h
  · exact absurd h (by simp)
  split at h
  · exact absurd h (by simp)
  split at h
  · exact absurd h (by simp)
  split at h
  · exact absurd h (by simp)
  · simp only [Option.some.injEq] at h
    rename_i h1 h2 h3 h4 h5
    exact ⟨h1, Bool.eq_false_iff.mpr h2, h3, h4, h5, h.symm⟩

theorem cleanRows_headD_length (t : TableRec) (hrect : rectRec t)
    (hne : cleanRows t.rows ≠ []) :
    ((cleanRows t.rows).headD []).length = t.shape.2 := by
  cases hcc : cleanRows t.rows with
  | nil => exact absurd hcc hne
  | cons r m =>
    show r.length = t.shape.2
    exact cleanRows_row_lengths t hrect r (hcc ▸ List.mem_cons_self r m)

theorem acceptedRec_normal (t : TableRec) (hrect : rectRec t)
    (h1 : ¬(t.rows.length < 2 ∨ t.shape.2 < 2))
    (h2 : accuracyRejected t = false)
    (h3 : ¬(cleanRows t.rows).length < 2)
    (h4 : ¬(0 < totalCellsOf (cleanRows t.rows) ∧
      3 * totalCellsOf (cleanRows t.rows) < 5 * emptyCellsOf (cleanRows t.rows)))
    (h5 : ¬(uniqueValsOf (cleanRows t.rows)).length < 3) :
    normalRec (acceptedRec t) := by
  have hne : cleanRows t.rows ≠ [] := by
    intro e
    rw [e] at h3
    simp at h3
  have hhd := cleanRows_headD_length t hrect hne
  have hurows : (acceptedRec t).rows = (cleanRows t.rows).map (fun r => r.map some) := rfl
  have hcr : cleanRows (acceptedRec t).rows = cleanRows t.rows := by
    rw [hurows, cleanRows_reclean]
  refine ⟨?_, ?_, ?_, ?_, ?_, ?_, ?_, ?_, ?_⟩
  · rw [hcr]; exact hurows.symm
  · rw [hcr]; rfl
  · rw [hcr]; omega
  · show 2 ≤ ((cleanRows t.rows).headD []).length
    rw [hhd]; omega
  · exact h2
  · rw [hcr]; exact h4
  · rw [hcr]; omega
  · show (newHeaders t).map some ≠ []
    have : newHeaders t ≠ [] := by
      unfold newHeaders
      split
      · next hh =>
        intro e
        have := congrArg List.length e
        rw [List.length_map, pyEnum_length] at this
        exact hh (List.length_eq_zero.mp this)
      · intro e
        have := congrArg List.length e
        rw [List.length_map, List.length_range] at this
        have hpos : 0 < (mutatedRec t).shape.2 := by
          show 0 < ((cleanRows t.rows).headD []).length
          omega
        rw [if_pos hpos] at this
        show False
        have : ((cleanRows t.rows).headD []).length = 0 := this
        omega
    intro e
    exact this (List.map_eq_nil_iff.mp e)
  · intro hh hmem
    show ∃ s, hh = some s ∧ pyStrip s = s
    have : hh ∈ (newHeaders t).map some := hmem
    rw [List.mem_map] at this
    obtain ⟨s, hs, rfl⟩ := this
    exact ⟨s, rfl, newHeaders_stripFixed t s hs⟩

theorem processTable_idem (t t2 : TableRec) (hrect : rectRec t)
    (h : (processTable t).1 = some t2) : processTable t2 = (some t2, t2) := by
  obtain ⟨h1, h2, h3, h4, h5, rfl⟩ := accept_conditions t t2 h
  exact processTable_of_normal _ (acceptedRec_normal t hrect h1 h2 h3 h4 h5)

theorem filterTQ_cons (t : TableRec) (ts : List TableRec) :
    filterTablesByQuality (t :: ts) =
      match (processTable t).1 with
      | some t2 => t2 :: filterTablesByQuality ts
      | none => filterTablesByQuality ts := rfl

theorem filterTablesByQuality_idem (l : List TableRec)
    (h : ∀ t ∈ l, rectRec t) :
    filterTablesByQuality (filterTablesByQuality l) = filterTablesByQuality l := by
  induction l with
  | nil => rfl
  | cons t ts ih =>
    have hts := ih (fun u hu => h u (List.mem_cons_of_mem _ hu))
    cases hp : (processTable t).1 with
    | none => rw [filterTQ_cons, hp]; exact hts
    | some t2 =>
      rw [filterTQ_cons, hp]
      have hidem := processTable_idem t t2 (h t (List.mem_cons_self _ _)) hp
      rw [filterTQ_cons, show (processTable t2).1 = some t2 from by rw [hidem]]
      rw [hts]

theorem mem_filterTablesForDisplay (t : TableRec) (l : List TableRec)
    (h : t ∈ filterTablesForDisplay l) : t ∈ l ∧ displayKeep t = true := by
  unfold filterTablesForDisplay at h
  split at h
  · simp at h
  · have h2 := (List.take_sublist 3 _).subset h
    rw [mem_sortByKeyDesc, List.mem_filter] at h2
    exact h2

theorem filterTablesForDisplay_idem (l : List TableRec) :
    filterTablesForDisplay (filterTablesForDisplay l) = filterTablesForDisplay l := by
  have step : ∀ m : List TableRec, m ≠ [] →
      filterTablesForDisplay m = (sortByKeyDesc (m.filter displayKeep)).take 3 := by
    intro m hm
    unfold filterTablesForDisplay
    rw [if_neg hm]
  by_cases hl : l = []
  · subst hl; rfl
  · have hout := step l hl
    by_cases ho : filterTablesForDisplay l = []
    · rw [ho]; rfl
    · rw [step _ ho]
      have hkeep : (filterTablesForDisplay l).filter displayKeep =
          filterTablesForDisplay l :=
        List.filter_eq_self.mpr (fun a ha => (mem_filterTablesForDisplay a l ha).2)
      rw [hkeep]
      have hpw : (filterTablesForDisplay l).Pairwise
          (fun a b => keyLE (dispSortKey b) (dispSortKey a)) := by
        rw [hout]
        exact List.Pairwise.sublist (List.take_sublist _ _) (pairwise_sortByKeyDesc _)
      rw [sortByKeyDesc_eq_self _ hpw]
      refine List.take_of_length_le ?_
      rw [hout]
      exact List.length_take_le _ _

/-!
## Helper lemmas: delimiter selection, padding, merge, scorer
-/

theorem bestDelimStep_mono (lines : List String) (acc : Option String × Nat)
    (d : String) : acc.2 ≤ (bestDelimStep lines acc d).2 := by
  unfold bestDelimStep
  split
  · next h => exact le_of_lt h
  · exact le_refl _

theorem foldBest_mono (lines : List String) (ds : List String)
    (acc : Option String × Nat) :
    acc.2 ≤ (ds.foldl (bestDelimStep lines) acc).2 := by
  induction ds generalizing acc with
  | nil => exact le_refl _
  | cons d ds ih =>
    exact le_trans (bestDelimStep_mono lines acc d) (ih _)

theorem foldBest_ge (lines : List String) (ds : List String)
    (acc : Option String × Nat) (d : String) (hd : d ∈ ds) :
    delimScore lines d ≤ (ds.foldl (bestDelimStep lines) acc).2 := by
  induction ds generalizing acc with
  | nil => simp at hd
  | cons e ds ih =>
    rcases List.mem_cons.mp hd with rfl | hd
    · refine le_trans ?_ (foldBest_mono lines ds _)
      unfold bestDelimStep
      split
      · exact le_refl _
      · next h => exact le_of_not_lt h
    · exact ih _ hd

theorem le_maxColCount (data : List (List String)) (r : List String)
    (hr : r ∈ data) : r.length ≤ maxColCount data := by
  unfold maxColCount
  induction data with
  | nil => simp at hr
  | cons a l ih =>
    rcases List.mem_cons.mp hr with rfl | hr
    · exact le_max_left _ _
    · exact le_trans (ih hr) (le_max_right _ _)

theorem mem_padRows (data : List (List String)) (r : List String)
    (hr : r ∈ padRows data) : r.length = maxColCount data := by
  unfold padRows at hr
  rw [List.mem_map] at hr
  obtain ⟨r0, hr0, rfl⟩ := hr
  rw [List.length_append, List.length_replicate]
  have := le_maxColCount data r0 hr0
  omega

theorem mergeFold_mem (lattice ss : List TableRec) (m : List TableRec)
    (p : List Int) (t : TableRec)
    (h : t ∈ (ss.foldl (mergeStep lattice) (m, p)).1) : t ∈ m ∨ t ∈ ss := by
  induction ss generalizing m p with
  | nil => exact Or.inl h
  | cons s ss ih =>
    simp only [List.foldl_cons] at h
    have hcases : (mergeStep lattice (m, p) s).1 = m ∨
        (mergeStep lattice (m, p) s).1 = m ++ [s] := by
      unfold mergeStep
      split
      · split
        · exact Or.inl rfl
        · exact Or.inr rfl
      · exact Or.inr rfl
    rcases ih (mergeStep lattice (m, p) s).1 (mergeStep lattice (m, p) s).2 h with
      hm | hs
    · rcases hcases with he | he
      · rw [he] at hm
        exact Or.inl hm
      · rw [he] at hm
        rcases List.mem_append.mp hm with h1 | h1
        · exact Or.inl h1
        · simp only [List.mem_singleton] at h1
          subst h1
          exact Or.inr (List.mem_cons_self _ _)
    · exact Or.inr (List.mem_cons_of_mem _ hs)

theorem mergeStep_append_iff (lattice m : List TableRec) (pages : List Int)
    (s : TableRec) (hp : s.page ∈ pages) :
    (mergeStep lattice (m, pages) s).1 = m ++ [s] ↔
      ∀ lt ∈ lattice, lt.page = s.page →
        10 * cellCount lt < 7 * cellCount s := by
  unfold mergeStep
  rw [if_pos hp]
  split
  · next hany =>
    constructor
    · intro he
      have := congrArg List.length he
      simp at this
    · intro hall
      exfalso
      rw [List.any_eq_true] at hany
      obtain ⟨lt, hmem, hdom⟩ := hany
      rw [List.mem_filter] at hmem
      have hpage : lt.page = s.page := by
        have := hmem.2
        simpa using this
      have hlt := hall lt hmem.1 hpage
      rw [decide_eq_true_eq] at hdom
      omega
  · next hany =>
    constructor
    · intro _ lt hmem hpage
      by_contra hcon
      push_neg at hcon
      refine hany ?_
      rw [List.any_eq_true]
      refine ⟨lt, ?_, ?_⟩
      · rw [List.mem_filter]
        exact ⟨hmem, by simp [hpage]⟩
      · rw [decide_eq_true_eq]
        omega
    · intro _
      rfl

theorem consistencyScoreQ_nonneg (cc : List Nat) : 0 ≤ consistencyScoreQ cc := by
  unfold consistencyScoreQ
  split
  · norm_num
  · exact le_max_left 0 _

theorem avgColsQ_nonneg (cc : List Nat) : 0 ≤ avgColsQ cc := by
  unfold avgColsQ
  positivity

theorem colsScoreQ_nonneg (cc : List Nat) : 0 ≤ colsScoreQ cc := by
  unfold colsScoreQ
  refine le_min (by norm_num) ?_
  have := avgColsQ_nonneg cc
  positivity

theorem contentScoreQ_nonneg (data : List (List String)) :
    0 ≤ contentScoreQ data := by
  unfold contentScoreQ
  split
  · exact mul_nonneg (div_nonneg (Nat.cast_nonneg _) (Nat.cast_nonneg _))
      (by norm_num)
  · exact le_refl 0

theorem rowScoreQ_nonneg (n : Nat) : 0 ≤ rowScoreQ n := by
  unfold rowScoreQ
  refine le_min (by norm_num) ?_
  positivity

theorem scoreTableStructure_nonneg (data : List (List String)) :
    0 ≤ scoreTableStructure data := by
  unfold scoreTableStructure
  split
  · exact le_refl 0
  · split
    · norm_num
    · have h1 := consistencyScoreQ_nonneg (data.map List.length)
      have h2 := colsScoreQ_nonneg (data.map List.length)
      have h3 := contentScoreQ_nonneg data
      have h4 := rowScoreQ_nonneg data.length
      linarith

theorem filterTQ_eq_filterMap (l : List TableRec) :
    filterTablesByQuality l = l.filterMap (fun t => (processTable t).1) := by
  induction l with
  | nil => rfl
  | cons t ts ih =>
    rw [filterTQ_cons, List.filterMap_cons]
    cases hp : (processTable t).1 <;> simp [hp, ih]

/-!
## Concrete records used by counterexamples and witnesses
-/

/-- A well-formed record with accuracy 1 that passes the extraction-path
quality filter. -/
def lowAccRec : TableRec :=
  { page := 1,
    rows := [[some "a", some "b"], [some "c", some "d"]],
    headers := [some "h1", some "h2"],
    shape := (2, 2),
    accuracy := some (some 1) }

/-- The same table with the higher accuracy 2 (camelot reports accuracy as an
unscaled number, so any positive value is legitimate). -/
def highAccRec : TableRec :=
  { page := 1,
    rows := [[some "a", some "b"], [some "c", some "d"]],
    headers := [some "h1", some "h2"],
    shape := (2, 2),
    accuracy := some (some 2) }

/-- A record whose first cell carries surrounding whitespace. -/
def wsCellRec : TableRec :=
  { page := 1,
    rows := [[some " a ", some "b"], [some "c", some "d"]],
    headers := [some "h1", some "h2"],
    shape := (2, 2),
    accuracy := none }

/-- The post-filter state of `wsCellRec`: rows cleaned in place. -/
def wsCellOutRec : TableRec :=
  { page := 1,
    rows := [[some "a", some "b"], [some "c", some "d"]],
    headers := [some "h1", some "h2"],
    shape := (2, 2),
    accuracy := none }

/-- A record with ragged rows whose first row is narrower than the declared
column count; it satisfies the spec's Table Record invariant
(`shape[0] == len(rows)`, `shape[1] == max row length`, headers length =
`shape[1]`). -/
def raggedRec : TableRec :=
  { page := 1,
    rows := [[some "a"], [some "b", some "c"]],
    headers := [some "h1", some "h2"],
    shape := (2, 2),
    accuracy := none }

/-- A lattice-extracted table on page 2 with shape (5,3) = 15 cells. -/
def latRec53 : TableRec :=
  { page := 2, rows := [], headers := [], shape := (5, 3), accuracy := none }

/-- A stream-extracted table on page 2 with shape (5,5) = 25 cells. -/
def strRec55 : TableRec :=
  { page := 2, rows := [], headers := [], shape := (5, 5), accuracy := none }

/-- A record carrying no `'accuracy'` key. -/
def noAccRec : TableRec :=
  { page := 1, rows := [], headers := [], shape := (0, 0), accuracy := none }

/-- A record with positive accuracy 1/2. -/
def posAccRec : TableRec :=
  { page := 1, rows := [], headers := [], shape := (0, 0),
    accuracy := some (some 1) }

/-- A long lower-case line without digits (not header-like, not data-like). -/
def cexLine1 : String := "the quick brown fox jumps over the lazy dog again"

/-- A long lower-case line containing a digit (data-like, not header-like). -/
def cexLine2 : String := "the quick brown fox jumps over 7 lazy dogs today ok"

/-!
## Claim theorems
-/

/-- Claim C1, counterexample: the extraction-path quality filter does not
sort.  On the input `[lowAccRec, highAccRec]` it returns the accepted records
in input order, whose key sequence is strictly ascending in accuracy
(1 before 2) — not the descending order the claim asserts, since the
later record's key is not ≤ the earlier one's. -/
theorem c1_filter_order_counterexample :
    (filterTablesByQuality [lowAccRec, highAccRec]).map dispSortKey =
      [((1 : ℚ), (4 : Nat), (4 : Nat)), ((2 : ℚ), 4, 4)] ∧
    ¬ keyLE ((2 : ℚ), (4 : Nat), (4 : Nat)) ((1 : ℚ), (4 : Nat), (4 : Nat)) := by
  constructor
  · decide
  · decide

/-- Claim C1 (amended): only the display path sorts descending by
(accuracy, cell count, unique-value count) and truncates to at most 3
records; the extraction-path filter returns accepted records in input order
(it is a per-record filter-map with no sorting). -/
theorem c1_filter_order_theorem :
    (∀ l : List TableRec,
       (filterTablesForDisplay l).Pairwise
         (fun a b => keyLE (dispSortKey b) (dispSortKey a))) ∧
    (∀ l : List TableRec, (filterTablesForDisplay l).length ≤ 3) ∧
    (∀ l : List TableRec,
       filterTablesByQuality l = l.filterMap (fun t => (processTable t).1)) := by
  refine ⟨?_, ?_, filterTQ_eq_filterMap⟩
  · intro l
    unfold filterTablesForDisplay
    split
    · exact List.Pairwise.nil
    · exact List.Pairwise.sublist (List.take_sublist _ _) (pairwise_sortByKeyDesc _)
  · intro l
    unfold filterTablesForDisplay
    split
    · simp
    · exact List.length_take_le _ _

/-- Claim C2, counterexample: the extraction-path quality filter mutates its
input records.  After the call, the record with a whitespace-padded cell no
longer has its original `rows`: the input list's post-call state differs from
its pre-call state. -/
theorem c2_immutability_counterexample :
    ((processTable wsCellRec).2).rows ≠ wsCellRec.rows ∧
    inputStatesAfterFilter [wsCellRec] ≠ [wsCellRec] := by
  constructor
  · decide
  · decide

/-- Claim C2 (amended): the extraction-path filter mutates accepted records
in place (the accepted output is exactly the post-call state of the input
record), while the display-path filter and the merger return lists whose
elements are input records, unmodified. -/
theorem c2_mutation_theorem :
    (∀ t t2 : TableRec, (processTable t).1 = some t2 →
       (processTable t).2 = t2) ∧
    (∀ (l : List TableRec) (t : TableRec),
       t ∈ filterTablesForDisplay l → t ∈ l) ∧
    (∀ (la ls : List TableRec) (t : TableRec),
       t ∈ mergeTableResults la ls → t ∈ la ∨ t ∈ ls) := by
  refine ⟨processTable_accept_state, ?_, ?_⟩
  · intro l t h
    exact (mem_filterTablesForDisplay t l h).1
  · intro la ls t h
    unfold mergeTableResults at h
    split at h
    · exact Or.inl h
    · split at h
      · exact Or.inr h
      · exact mergeFold_mem la ls la (la.map (·.page)) t h

/-- Claim C2 witness: at the whitespace-padded record the theorem's first
part applies, showing the accepted output aliases the mutated input. -/
theorem c2_mutation_witness :
    (processTable wsCellRec).1 = some wsCellOutRec ∧
    (processTable wsCellRec).2 = wsCellOutRec :=
  ⟨by decide, c2_mutation_theorem.1 wsCellRec wsCellOutRec (by decide)⟩

/-- The numerator/denominator encoding used by `accuracyRejected` is exactly
the comparison `q < 3/10` of the source's `accuracy < 0.3`. -/
theorem accuracyThreshold_iff (q : ℚ) :
    (q.num * 10 < 3 * (q.den : Int)) ↔ q < 3 / 10 := by
  rw [show (q < 3 / 10) ↔ q * 10 < 3 from lt_div_iff₀ (by norm_num)]
  have hden : (0 : ℚ) < (q.den : ℚ) := by
    exact_mod_cast q.den_pos
  conv_rhs => rw [← Rat.num_div_den q]
  rw [div_mul_eq_mul_div, div_lt_iff₀ hden]
  constructor <;> intro h <;> exact_mod_cast h

/-- The numerator/denominator encoding used by `dispAccuracyRejected` is
exactly the comparison `q < 2/5` of the source's `accuracy < 0.4`. -/
theorem dispAccuracyThreshold_iff (q : ℚ) :
    (q.num * 5 < 2 * (q.den : Int)) ↔ q < 2 / 5 := by
  rw [show (q < 2 / 5) ↔ q * 5 < 2 from lt_div_iff₀ (by norm_num)]
  have hden : (0 : ℚ) < (q.den : ℚ) := by
    exact_mod_cast q.den_pos
  conv_rhs => rw [← Rat.num_div_den q]
  rw [div_mul_eq_mul_div, div_lt_iff₀ hden]
  constructor <;> intro h <;> exact_mod_cast h

/-- Claim C3: once a second-list table's page is already represented, the
merge step appends it exactly when no first-list table on that page has cell
count at least 70% of the candidate's (`10 * lt ≥ 7 * cand` over the shape
products); concretely a (5,3) lattice table does not dominate a (5,5) stream
table on the same page (15 < 0.7·25), so the merged result keeps both. -/
theorem c3_merge_dominance :
    (∀ (lattice m : List TableRec) (pages : List Int) (s : TableRec),
       s.page ∈ pages →
       ((mergeStep lattice (m, pages) s).1 = m ++ [s] ↔
         ∀ lt ∈ lattice, lt.page = s.page →
           10 * cellCount lt < 7 * cellCount s)) ∧
    mergeTableResults [latRec53] [strRec55] = [latRec53, strRec55] :=
  ⟨mergeStep_append_iff, by decide⟩

/-- Claim C3 witness: the dominance criterion instantiated at the concrete
page-2 tables of the spec's Example 4. -/
theorem c3_merge_dominance_witness :
    strRec55.page ∈ ([2] : List Int) ∧
    ((mergeStep [latRec53] ([latRec53], [2]) strRec55).1 =
        [latRec53] ++ [strRec55] ↔
      ∀ lt ∈ [latRec53], lt.page = strRec55.page →
        10 * cellCount lt < 7 * cellCount strRec55) :=
  ⟨by decide, c3_merge_dominance.1 [latRec53] [latRec53] [2] strRec55 (by decide)⟩

/-- Claim C4: the Delimiter Detector returns a non-empty result only when the
best score exceeds 10, the best score bounds every candidate delimiter's
score (total occurrences over the first 20 lines, doubled when the per-line
count is constant over lines containing the delimiter), and on the spec's
Example 2 the comma scores 12 and the rows come out exactly as claimed. -/
theorem c4_delimiter_detection :
    (∀ lines : List String, tryDelimiterDetection lines ≠ [] →
       10 < (bestDelimiter lines).2) ∧
    (∀ (lines : List String) (d : String), d ∈ pyDelimiters →
       delimScore lines d ≤ (bestDelimiter lines).2) ∧
    tryDelimiterDetection ["a,b,c", "1,2,3", "4,5,6"] =
      [["a", "b", "c"], ["1", "2", "3"], ["4", "5", "6"]] ∧
    delimScore ["a,b,c", "1,2,3", "4,5,6"] "," = 12 := by
  refine ⟨?_, ?_, by decide, by decide⟩
  · intro lines hne
    unfold tryDelimiterDetection at hne
    split at hne
    · exact absurd rfl hne
    · split at hne
      · by_cases hs : 10 < (bestDelimiter lines).2
        · exact hs
        · rw [if_neg hs] at hne
          exact absurd rfl hne
      · exact absurd rfl hne
  · intro lines d hd
    exact foldBest_ge lines pyDelimiters (none, 0) d hd

/-- Claim C4 witness: the theorem instantiated at the Example 2 lines with
the comma delimiter. -/
theorem c4_delimiter_detection_witness :
    tryDelimiterDetection ["a,b,c", "1,2,3", "4,5,6"] ≠ [] ∧
    ("," : String) ∈ pyDelimiters ∧
    10 < (bestDelimiter ["a,b,c", "1,2,3", "4,5,6"]).2 ∧
    delimScore ["a,b,c", "1,2,3", "4,5,6"] "," ≤
      (bestDelimiter ["a,b,c", "1,2,3", "4,5,6"]).2 :=
  ⟨by decide, by decide,
   c4_delimiter_detection.1 ["a,b,c", "1,2,3", "4,5,6"] (by decide),
   c4_delimiter_detection.2.1 ["a,b,c", "1,2,3", "4,5,6"] "," (by decide)⟩

/-- Claim C5: every row of the table produced by the Text-to-Table
Orchestrator after the padding step has length equal to the maximum column
count of the chosen data. -/
theorem c5_padding_rectangular :
    ∀ text : String, ∀ r ∈ textToTableRows text,
      r.length = maxColCount (textToTableData text) := by
  intro text r hr
  exact mem_padRows _ r hr

/-- Claim C5 witness: the padding invariant at the concrete input `"x"`. -/
theorem c5_padding_rectangular_witness :
    (["x"] ∈ textToTableRows "x") ∧
    (["x"] : List String).length = maxColCount (textToTableData "x") :=
  ⟨by decide, c5_padding_rectangular "x" ["x"] (by decide)⟩

/-- Claim C6, counterexample: the extraction-path quality filter is not
idempotent.  `raggedRec` satisfies the spec's Table Record invariant, is
accepted by the first pass (which rewrites `shape` to `(2, 1)` from the
narrow first row), and the second pass then rejects the accepted record at
the column-count check, so filtering the accepted list changes it. -/
theorem c6_idempotence_counterexample :
    filterTablesByQuality (filterTablesByQuality [raggedRec]) ≠
      filterTablesByQuality [raggedRec] ∧
    filterTablesByQuality [raggedRec] ≠ [] := by
  constructor
  · decide
  · decide

/-- Claim C6 (amended): the display-path filter is idempotent
unconditionally, and the extraction-path filter is idempotent on lists of
records whose rows all have the declared column width (as produced by the
extraction back-ends); the counterexample shows idempotence fails once a
record's first row is narrower than its declared width. -/
theorem c6_idempotence_theorem :
    (∀ l : List TableRec,
       filterTablesForDisplay (filterTablesForDisplay l) =
         filterTablesForDisplay l) ∧
    (∀ l : List TableRec, (∀ t ∈ l, rectRec t) →
       filterTablesByQuality (filterTablesByQuality l) =
         filterTablesByQuality l) :=
  ⟨filterTablesForDisplay_idem, filterTablesByQuality_idem⟩

/-- Claim C6 witness: idempotence of the extraction-path filter at a concrete
rectangular record. -/
theorem c6_idempotence_witness :
    (∀ t ∈ [wsCellRec], rectRec t) ∧
    filterTablesByQuality (filterTablesByQuality [wsCellRec]) =
      filterTablesByQuality [wsCellRec] :=
  ⟨by decide, c6_idempotence_theorem.2 [wsCellRec] (by decide)⟩

/-- Claim C7: the Structure Scorer is deterministic, each of its four
component scores is bounded below by 0, the total score is non-negative, and
a table with at most one row scores exactly 0 or 1. -/
theorem c7_scorer :
    (∀ d1 d2 : List (List String), d1 = d2 →
       scoreTableStructure d1 = scoreTableStructure d2) ∧
    (∀ cc : List Nat, 0 ≤ consistencyScoreQ cc) ∧
    (∀ cc : List Nat, 0 ≤ colsScoreQ cc) ∧
    (∀ data : List (List String), 0 ≤ contentScoreQ data) ∧
    (∀ n : Nat, 0 ≤ rowScoreQ n) ∧
    (∀ data : List (List String), 0 ≤ scoreTableStructure data) ∧
    (∀ data : List (List String), data.length ≤ 1 →
       scoreTableStructure data = 0 ∨ scoreTableStructure data = 1) := by
  refine ⟨?_, consistencyScoreQ_nonneg, colsScoreQ_nonneg, contentScoreQ_nonneg,
    rowScoreQ_nonneg, scoreTableStructure_nonneg, ?_⟩
  · intro d1 d2 h
    rw [h]
  · intro data h
    unfold scoreTableStructure
    by_cases hd : data = []
    · rw [if_pos hd]
      exact Or.inl rfl
    · rw [if_neg hd, if_pos h]
      exact Or.inr rfl

/-- Claim C7 witness: the scorer instantiated at the one-row table
`[["a1"]]`. -/
theorem c7_scorer_witness :
    (([["a1"]] : List (List String)) = [["a1"]]) ∧
    (([["a1"]] : List (List String)).length ≤ 1) ∧
    scoreTableStructure [["a1"]] = scoreTableStructure [["a1"]] ∧
    (scoreTableStructure [["a1"]] = 0 ∨ scoreTableStructure [["a1"]] = 1) :=
  ⟨rfl, by decide, c7_scorer.1 [["a1"]] [["a1"]] rfl,
   c7_scorer.2.2.2.2.2.2 [["a1"]] (by decide)⟩

/-- Claim C8, counterexample: a data-like line can be appended to a buffer
whose previous line was not data-like.  `cexLine1` has no digit and is not
header-like (49 lower-case characters), yet the digit-carrying `cexLine2` is
appended to its buffer, producing one group instead of the two the claim
predicts. -/
theorem c8_line_grouping_counterexample :
    tryLineGrouping [cexLine1, cexLine2] ≠ [[cexLine1], [cexLine2]] ∧
    tryLineGrouping [cexLine1, cexLine2] = [[cexLine1, cexLine2]] ∧
    hasDigitStr cexLine1 = false ∧ hasDigitStr cexLine2 = true ∧
    isHeaderLike cexLine1 = false ∧ isHeaderLike cexLine2 = false := by
  refine ⟨by decide, by decide, by decide, by decide, by decide, by decide⟩

/-- Claim C8 (amended): with the classification predicates as stated, a line
is appended to the non-empty current buffer exactly when it contains a digit,
is not header-like, and the run counter is positive; and the run counter is
zero exactly immediately after a header-like line has closed a non-empty
buffer — every other line (including the very first, and any line starting a
fresh buffer through the default branch) leaves it positive, so a data-like
line also continues a buffer whose previous line was not data-like. -/
theorem c8_line_grouping_theorem :
    (∀ (data : List (List String)) (cur : List String) (pc : Nat)
        (line : String),
       ((lineGroupStep (data, cur, pc) line).2.1 = cur ++ [line] ∧ cur ≠ []) ↔
         (cur ≠ [] ∧ isHeaderLike line = false ∧ hasDigitStr line = true ∧
          0 < pc)) ∧
    (∀ (data : List (List String)) (cur : List String) (pc : Nat)
        (line : String),
       (lineGroupStep (data, cur, pc) line).2.2 = 0 ↔
         (isHeaderLike line = true ∧ cur ≠ [])) ∧
    tryLineGrouping [cexLine1, cexLine2] = [[cexLine1, cexLine2]] := by
  refine ⟨?_, ?_, by decide⟩
  · intro data cur pc line
    simp only [lineGroupStep]
    split
    · next hh =>
      constructor
      · rintro ⟨heq, hcur⟩
        exfalso
        have hlen := congrArg List.length heq
        simp only [List.length_cons, List.length_append,
          List.length_singleton, List.length_nil] at hlen
        have : cur = [] := List.length_eq_zero.mp (by omega)
        exact hcur this
      · rintro ⟨hcur, hnh, _, _⟩
        rw [hnh] at hh
        simp at hh
    · next hh =>
      split
      · next hd =>
        constructor
        · rintro ⟨_, hcur⟩
          have hnh : isHeaderLike line = false := by
            cases hib : isHeaderLike line
            · rfl
            · exact absurd ⟨hib, hcur⟩ hh
          exact ⟨hcur, hnh, hd.1, hd.2⟩
        · rintro ⟨hcur, _, _, _⟩
          exact ⟨rfl, hcur⟩
      · next hd =>
        constructor
        · rintro ⟨heq, hcur⟩
          exfalso
          have hlen := congrArg List.length heq
          simp only [List.length_cons, List.length_append,
            List.length_singleton, List.length_nil] at hlen
          have : cur = [] := List.length_eq_zero.mp (by omega)
          exact hcur this
        · rintro ⟨_, _, hdig, hpc⟩
          exact absurd ⟨hdig, hpc⟩ hd
  · intro data cur pc line
    simp only [lineGroupStep]
    split
    · next hh =>
      constructor
      · intro _
        exact hh
      · intro _
        rfl
    · next hh =>
      split
      · constructor
        · intro h
          exact absurd h (Nat.succ_ne_zero pc)
        · intro hr
          exact absurd hr hh
      · constructor
        · intro h
          exact absurd h one_ne_zero
        · intro hr
          exact absurd hr hh

/-- Claim C9, counterexample: with metadata present (no tables, no text) the
fallback file is not just the header — it carries one data row per metadata
entry. -/
theorem c9_metadata_counterexample :
    metadataFallbackRows [("Title", "Example")] =
      [["Metadata_Key", "Metadata_Value"], ["Title", "Example"]] ∧
    (metadataFallbackRows [("Title", "Example")]).length ≠ 1 := by
  constructor
  · rfl
  · decide

/-- Claim C9 (amended): the metadata fallback always writes the two-column
`Metadata_Key,Metadata_Value` header first, followed by one data row per
metadata key/value pair; the data-row section is empty exactly when the
metadata mapping is empty. -/
theorem c9_metadata_rows_theorem :
    ∀ md : List (String × String),
      (metadataFallbackRows md).head? = some ["Metadata_Key", "Metadata_Value"] ∧
      (metadataFallbackRows md).tail = md.map (fun kv => [kv.1, kv.2]) ∧
      ((metadataFallbackRows md).tail = [] ↔ md = []) := by
  intro md
  refine ⟨rfl, rfl, ?_⟩
  show md.map _ = [] ↔ md = []
  simp

/-- Claim C10: a record without an `'accuracy'` key is treated asymmetrically
by the display path — it passes the accuracy-threshold check (the default
1.0 is never below 0.4), yet its sort key defaults to accuracy 0, placing it
strictly below every record with positive accuracy under the descending
lexicographic order. -/
theorem c10_accuracy_asymmetry :
    ∀ t u : TableRec, t.accuracy = none → 0 < dispSortAcc u →
      dispAccuracyRejected t = false ∧
      keyLE (dispSortKey t) (dispSortKey u) ∧
      ¬ keyLE (dispSortKey u) (dispSortKey t) := by
  intro t u ht hu
  have hta : dispSortAcc t = 0 := by
    unfold dispSortAcc
    rw [ht]
  refine ⟨?_, ?_, ?_⟩
  · unfold dispAccuracyRejected dispAccGet
    rw [ht]
    rfl
  · unfold keyLE
    left
    show dispSortAcc t < dispSortAcc u
    rw [hta]
    exact hu
  · intro hcon
    unfold keyLE at hcon
    rcases hcon with hlt | ⟨heq, _⟩
    · have h1 : dispSortAcc u < dispSortAcc t := hlt
      rw [hta] at h1
      linarith
    · have h1 : dispSortAcc u = dispSortAcc t := heq
      rw [hta] at h1
      linarith

/-- Claim C10 witness: the asymmetry at a record without accuracy against a
record with accuracy 1. -/
theorem c10_accuracy_asymmetry_witness :
    noAccRec.accuracy = none ∧ 0 < dispSortAcc posAccRec ∧
    (dispAccuracyRejected noAccRec = false ∧
     keyLE (dispSortKey noAccRec) (dispSortKey posAccRec) ∧
     ¬ keyLE (dispSortKey posAccRec) (dispSortKey noAccRec)) :=
  ⟨rfl, by decide, c10_accuracy_asymmetry noAccRec posAccRec rfl (by decide)⟩
